import Mathlib

/-!
Shallow embedding of the libp2p-learn repository's synchronization layer
(`test_helpers.go`-style wait utilities) and protocol handler layer
(`protocols.go`): the ping, chat and echo stream protocols and the
`WaitForConnection` / `WaitForPeerCount` / `WaitForDHTValue` /
`WaitForProtocolReady` helpers.

Modelling conventions:
* A stream direction is the full ordered sequence of bytes (for echo) or
  characters (for the text protocols) that one side writes before closing
  that direction; streams are reliable and ordered, so a request/response
  exchange is function composition of the two endpoints' transfer functions.
* Bytes are `Nat`; peer identifiers are `Nat` (opaque, comparable).
* `bufio.Reader.ReadString` with the newline delimiter is `readLine`: it
  returns the data up to and including the first newline together with the
  rest of the stream, and fails (end of stream before a delimiter) with
  `none` — in Go that is a non-nil error, which every call site treats as
  a terminating failure.
* Go durations are in milliseconds as `Nat`; host state observed by a
  polling loop is a function from observation time to the observed value.
* Fallible operations return `Except (List Char) α`, the error being the
  message built exactly as the Go `fmt.Errorf` call builds it.
-/

namespace LibP2PLearn

abbrev Byte := Nat

/-- `io.Copy(s, s)` as invoked by `handleEcho`: repeatedly read a chunk of at
most 32768 bytes (the 32*1024 internal buffer of `io.Copy`) and write it back,
until the read side reports end of stream. -/
def ioCopy : List Byte → List Byte
  | [] => []
  | b :: rest => ((b :: rest).take 32768) ++ ioCopy ((b :: rest).drop 32768)
termination_by l => l.length
decreasing_by simp [List.length_drop]; omega

/-- `handleEcho`: the server copies every byte read from the stream back onto
the stream (`io.Copy(s, s)`), then closes. -/
def handleEcho (input : List Byte) : List Byte := ioCopy input

/-- `SendEcho`: the client writes `data`, half-closes its write side
(`s.CloseWrite()`), and reads the server's stream to end of stream
(`io.ReadAll`), returning everything read. The server's input is exactly
`data` (the half-close marks end of stream), so the client reads exactly the
server's `handleEcho` output. -/
def SendEcho (data : List Byte) : List Byte := handleEcho data

/-- `bufio.Reader.ReadString('\n')`: scan for the first newline; on success
return the consumed data including the delimiter plus the remaining stream;
`none` when the stream ends before a delimiter appears (a read error at every
call site of the repository). -/
def readLine : List Char → Option (List Char × List Char)
  | [] => none
  | c :: cs =>
    if c = '\n' then some ([c], cs)
    else
      match readLine cs with
      | none => none
      | some (l, r) => some (c :: l, r)

/-- The fixed text the ping server puts in front of the received line:
`fmt.Sprintf("pong: %s", data)`. -/
def pongTag : List Char := ['p', 'o', 'n', 'g', ':', ' ']

/-- `handlePing`: read one line from the stream; on read failure return
without writing; otherwise write back `"pong: "` followed by the received
data (which still carries its trailing newline), then close. -/
def handlePing (input : List Char) : List Char :=
  match readLine input with
  | none => []
  | some (data, _) => pongTag ++ data

/-- `SendPing`: write `message + "\n"`, read one line of response, and return
it with its trailing newline removed (`response[:len(response)-1]`). -/
def SendPing (message : List Char) : Except (List Char) (List Char) :=
  let resp := handlePing (message ++ ['\n'])
  match readLine resp with
  | none => Except.error ['r', 'e', 'a', 'd']
  | some (line, _) => Except.ok line.dropLast

/-- The text the chat server puts in front of each echoed line:
`fmt.Sprintf("[%s] Echo: %s", timestamp, message)` for a timestamp rendered
as `HH:MM:SS` (`time.Now().Format("15:04:05")`), passed here as the
parameter `ts`. -/
def chatHeader (ts : List Char) : List Char :=
  '[' :: (ts ++ [']', ' ', 'E', 'c', 'h', 'o', ':', ' '])

/-- The chat server loop of `handleChat`, with the `bufio` line buffer made
explicit as `acc`: read characters into `acc` until a newline completes the
line `acc ++ ['\n']`, write back `chatHeader ts ++` that line, and continue on
the rest of the stream; end of stream (with or without a partial line in the
buffer) is a read error / clean EOF and terminates the loop with no further
output. -/
def chatLoop (ts : List Char) (acc : List Char) : List Char → List Char
  | [] => []
  | c :: cs =>
    if c = '\n' then (chatHeader ts ++ acc ++ ['\n']) ++ chatLoop ts [] cs
    else chatLoop ts (acc ++ [c]) cs

/-- `handleChat`: loop reading newline-terminated lines, echoing each back
with a timestamp header, until the read fails (clean end of stream included).
The wall-clock timestamp string is the parameter `ts`. -/
def handleChat (ts : List Char) (input : List Char) : List Char :=
  chatLoop ts [] input

/-- `SendChatMessage`: write `message + "\n"`, read one line of response, and
return it with its trailing newline removed. -/
def SendChatMessage (ts : List Char) (message : List Char) :
    Except (List Char) (List Char) :=
  let resp := handleChat ts (message ++ ['\n'])
  match readLine resp with
  | none => Except.error ['r', 'e', 'a', 'd']
  | some (line, _) => Except.ok line.dropLast

/-- Peer identifiers are opaque comparable values. -/
abbrev PeerID := Nat

/-- `isConnected(node, peerID)`: linear scan of the node's current
connected-peer list `node.Network().Peers()` for `peerID`. -/
def isConnected : List PeerID → PeerID → Bool
  | [], _ => false
  | p :: ps, peerID => if p = peerID then true else isConnected ps peerID

/-- The network state observed by `WaitForConnection` at the time of its
initial connectivity check: `peersA` is node1's connected-peer list and
`peersB` is node2's. -/
structure NetState where
  peersA : List PeerID
  peersB : List PeerID
deriving DecidableEq

/-- When, relative to the control points of `WaitForConnection`, the host
delivers a `Connected` event during the wait: in the gap after the initial
`isConnected` check but before `Network().Notify(notifiee1)` registers the
listener, or while the listener is registered. Events delivered in the gap
reach no registered notifiee of this call and are lost to it. -/
inductive DeliveryPhase
  | duringGap
  | whileSubscribed
deriving DecidableEq, BEq

/-- A `Connected` event delivered by the host during the wait, carrying the
remote peer of the new connection. -/
structure ConnEvent where
  remotePeer : PeerID
  phase : DeliveryPhase
deriving DecidableEq

/-- The externally visible subscription actions `WaitForConnection` performs
on the host's network: `Network().Notify(notifiee1)` and the deferred
`Network().StopNotify(notifiee1)`. -/
inductive Action
  | notifyReg
  | stopNotify
deriving DecidableEq

/-- Timeout message of `WaitForConnection`:
`fmt.Errorf("timeout waiting for connection")`. -/
def connTimeoutMsg : List Char := "timeout waiting for connection".toList

/-- Does a delivered event close the waiter's `connected` channel? It must
arrive while the notifiee is registered and name the target peer
(`conn.RemotePeer() == n.targetPeer`). -/
def eventFires (targetID : PeerID) (e : ConnEvent) : Bool :=
  e.phase == DeliveryPhase.whileSubscribed && e.remotePeer == targetID

/-- `WaitForConnection(ctx, node1, node2, timeout)` as a function of the
network state at the initial check and the `Connected` events the host
delivers during the wait. Control flow of the source: first check
`isConnected(node1, node2.ID()) && isConnected(node2, node1.ID())` and return
nil immediately on success; otherwise register `notifiee1` on node1's
network, block on the `connected` channel versus the context deadline, and
unregister the notifiee (deferred `StopNotify`) on the way out. The channel
closes exactly when some delivered event fires the registered notifiee; with
no firing event the deadline elapses and the timeout error is returned. The
second component is the trace of subscription actions performed. -/
def waitForConnection (st : NetState) (selfID targetID : PeerID)
    (events : List ConnEvent) : Except (List Char) Unit × List Action :=
  if isConnected st.peersA targetID && isConnected st.peersB selfID then
    (Except.ok (), [])
  else if events.any (eventFires targetID) then
    (Except.ok (), [Action.notifyReg, Action.stopNotify])
  else
    (Except.error connTimeoutMsg, [Action.notifyReg, Action.stopNotify])

/-- Timeout message of `WaitForPeerCount`:
`fmt.Errorf("timeout: expected %d peers, got %d", expectedCount, currentCount)`. -/
def peerCountTimeoutMsg (expected got : Nat) : List Char :=
  "timeout: expected ".toList ++ (toString expected).toList ++
    " peers, got ".toList ++ (toString got).toList

/-- The `for { select { ... } }` loop of `WaitForPeerCount`, at tick number
`k` (the ticker fires every 100 ms, so tick `k` occurs at time `100*k` ms
after the call). `peers t` is the size of `node.Network().Peers()` when
observed at time `t`. A tick at or after the deadline is modelled as the
`ctx.Done()` branch winning: the loop re-reads the peer count at the
deadline and returns the timeout error carrying it. -/
def waitForPeerCountLoop (peers : Nat → Nat) (expected timeoutMs k : Nat) :
    Except (List Char) Unit :=
  if timeoutMs ≤ 100 * k then
    Except.error (peerCountTimeoutMsg expected (peers timeoutMs))
  else if expected ≤ peers (100 * k) then Except.ok ()
  else waitForPeerCountLoop peers expected timeoutMs (k + 1)
termination_by timeoutMs - 100 * k
decreasing_by omega

/-- `WaitForPeerCount(ctx, node, expectedCount, timeout)`: no check happens
before the first ticker tick; the loop starts waiting for tick 1 at 100 ms. -/
def WaitForPeerCount (peers : Nat → Nat) (expected timeoutMs : Nat) :
    Except (List Char) Unit :=
  waitForPeerCountLoop peers expected timeoutMs 1

/-- Timeout message of `WaitForDHTValue`:
`fmt.Errorf("timeout waiting for DHT value")`. -/
def dhtTimeoutMsg : List Char := "timeout waiting for DHT value".toList

/-- The polling loop of `WaitForDHTValue` at tick `k` (200 ms ticker):
`lookup t` is the outcome of `dhtNode.GetValue(ctx, key)` at time `t` —
`Except.error` for a lookup error, otherwise the bytes found. Success only
when the lookup succeeds with exactly the expected bytes; any other outcome
retries until the deadline, whose error carries no observed state. -/
def waitForDHTValueLoop (lookup : Nat → Except Unit (List Byte))
    (expectedValue : List Byte) (timeoutMs k : Nat) :
    Except (List Char) Unit :=
  if timeoutMs ≤ 200 * k then Except.error dhtTimeoutMsg
  else
    match lookup (200 * k) with
    | Except.ok v =>
        if v = expectedValue then Except.ok ()
        else waitForDHTValueLoop lookup expectedValue timeoutMs (k + 1)
    | Except.error _ =>
        waitForDHTValueLoop lookup expectedValue timeoutMs (k + 1)
termination_by timeoutMs - 200 * k
decreasing_by all_goals omega

/-- `WaitForDHTValue(ctx, dhtNode, key, expectedValue, timeout)`. -/
def WaitForDHTValue (lookup : Nat → Except Unit (List Byte))
    (expectedValue : List Byte) (timeoutMs : Nat) : Except (List Char) Unit :=
  waitForDHTValueLoop lookup expectedValue timeoutMs 1

/-- Timeout message of `WaitForProtocolReady`:
`fmt.Errorf("timeout waiting for protocol %s", protocolID)`. -/
def protocolTimeoutMsg (protocolID : List Char) : List Char :=
  "timeout waiting for protocol ".toList ++ protocolID

/-- The polling loop of `WaitForProtocolReady` at tick `k` (100 ms ticker):
`getProtocols t` is the outcome of `node.Peerstore().GetProtocols(peerID)` at
time `t`. On a successful query the returned protocol list is scanned for
`protocolID`; query errors retry until the deadline. -/
def waitForProtocolReadyLoop (getProtocols : Nat → Except Unit (List (List Char)))
    (protocolID : List Char) (timeoutMs k : Nat) : Except (List Char) Unit :=
  if timeoutMs ≤ 100 * k then Except.error (protocolTimeoutMsg protocolID)
  else
    match getProtocols (100 * k) with
    | Except.ok protos =>
        if protocolID ∈ protos then Except.ok ()
        else waitForProtocolReadyLoop getProtocols protocolID timeoutMs (k + 1)
    | Except.error _ =>
        waitForProtocolReadyLoop getProtocols protocolID timeoutMs (k + 1)
termination_by timeoutMs - 100 * k
decreasing_by all_goals omega

/-- `WaitForProtocolReady(ctx, node, peerID, protocolID, timeout)`. -/
def WaitForProtocolReady (getProtocols : Nat → Except Unit (List (List Char)))
    (protocolID : List Char) (timeoutMs : Nat) : Except (List Char) Unit :=
  waitForProtocolReadyLoop getProtocols protocolID timeoutMs 1

/-- Shared state of one `connectionNotifiee`: the plain (non-atomic)
`notified` boolean and the number of times `close(n.connected)` has been
executed. In Go a second `close` of the same channel panics, so any
reachable state with `closeCount ≥ 2` is a double-close panic. -/
structure NotifieeState where
  notified : Bool
  closeCount : Nat
deriving DecidableEq

/-- Per-invocation state of one concurrent call of
`connectionNotifiee.Connected`: the remote peer of the connection it reports,
its program counter (0 = about to read `n.notified`, 1 = read done, 2 =
returned) and the value its read observed. -/
structure ThreadState where
  remotePeer : PeerID
  pc : Nat
  sawUnnotified : Bool
deriving DecidableEq

/-- One atomic machine step of a `Connected` invocation under sequential
consistency. The body `if !n.notified && conn.RemotePeer() == n.targetPeer
{ n.notified = true; close(n.connected) }` performs two separate accesses to
the unguarded shared field: step `pc = 0` is the load of `n.notified`; step
`pc = 1` evaluates the guard with the loaded value and, if it passes, stores
`true` and runs `close`. -/
def connectedStep (targetID : PeerID) (g : NotifieeState) (t : ThreadState) :
    NotifieeState × ThreadState :=
  match t.pc with
  | 0 => (g, { t with pc := 1, sawUnnotified := !g.notified })
  | 1 =>
      if t.sawUnnotified && t.remotePeer == targetID then
        ({ notified := true, closeCount := g.closeCount + 1 },
          { t with pc := 2 })
      else (g, { t with pc := 2 })
  | _ => (g, t)

/-- Run two concurrent `Connected` invocations (for connections whose remote
peers are `peer0` and `peer1`) against one notifiee under the interleaving
`schedule`: each schedule entry runs the next atomic step of that
invocation. Returns the final shared state. -/
def runConnected (targetID : PeerID) (peer0 peer1 : PeerID)
    (schedule : List (Fin 2)) : NotifieeState :=
  go schedule ⟨false, 0⟩ ⟨peer0, 0, false⟩ ⟨peer1, 0, false⟩
where
  go : List (Fin 2) → NotifieeState → ThreadState → ThreadState → NotifieeState
    | [], g, _, _ => g
    | tid :: rest, g, t0, t1 =>
      if tid = 0 then
        let s := connectedStep targetID g t0
        go rest s.1 s.2 t1
      else
        let s := connectedStep targetID g t1
        go rest s.1 t0 s.2

/-! Helper lemmas. -/

theorem ioCopy_eq (l : List Byte) : ioCopy l = l := by
  induction l using ioCopy.induct with
  | case1 => rw [ioCopy]
  | case2 b rest ih => rw [ioCopy, ih, List.take_append_drop]

theorem readLine_append (m rest : List Char) (h : '\n' ∉ m) :
    readLine (m ++ '\n' :: rest) = some (m ++ ['\n'], rest) := by
  induction m with
  | nil => simp [readLine]
  | cons c cs ih =>
      rw [List.mem_cons, not_or] at h
      rw [List.cons_append, readLine, if_neg (fun hc => h.1 hc.symm),
        ih h.2]
      rfl

theorem readLine_some {cs l r : List Char} (h : readLine cs = some (l, r)) :
    ∃ p, l = p ++ ['\n'] ∧ '\n' ∉ p ∧ cs = p ++ '\n' :: r := by
  induction cs generalizing l r with
  | nil => simp [readLine] at h
  | cons c cs ih =>
      rw [readLine] at h
      by_cases hc : c = '\n'
      · rw [if_pos hc] at h
        simp only [Option.some.injEq, Prod.mk.injEq] at h
        exact ⟨[], by simp [← h.1, hc], by simp, by simp [hc, h.2]⟩
      · rw [if_neg hc] at h
        cases hrl : readLine cs with
        | none => rw [hrl] at h; simp at h
        | some pr =>
            rw [hrl] at h
            simp only [Option.some.injEq, Prod.mk.injEq] at h
            obtain ⟨p, hp1, hp2, hp3⟩ := ih hrl
            refine ⟨c :: p, ?_, ?_, ?_⟩
            · rw [← h.1, hp1]; rfl
            · rw [List.mem_cons, not_or]
              exact ⟨fun hn => hc hn.symm, hp2⟩
            · rw [hp3, ← h.2]; rfl

theorem chatLoop_line (ts : List Char) :
    ∀ (m : List Char), '\n' ∉ m → ∀ acc rest,
      chatLoop ts acc (m ++ '\n' :: rest) =
        (chatHeader ts ++ (acc ++ m) ++ ['\n']) ++ chatLoop ts [] rest := by
  intro m
  induction m with
  | nil => intro _ acc rest; simp [chatLoop]
  | cons c cs ih =>
      intro h acc rest
      rw [List.mem_cons, not_or] at h
      rw [List.cons_append, chatLoop, if_neg (fun hc => h.1 hc.symm),
        ih h.2 (acc ++ [c]) rest]
      simp

/-! Claim theorems. -/

/-- C1: for every byte sequence `b` — empty, with embedded newlines, or
non-UTF8 — the `SendEcho` exchange against `handleEcho` (write `b`,
half-close the write side, read to end of stream) returns exactly `b`: the
echo exchange is length- and content-preserving. -/
theorem echo_roundtrip (b : List Byte) : SendEcho b = b := by
  unfold SendEcho handleEcho
  exact ioCopy_eq b

/-- C5: for every message `m` without embedded newlines, the `SendPing`
exchange against `handlePing` succeeds with `"pong: " ++ m`, which contains
both `m` and the literal `"pong: "`; on the wire the server's response is
exactly `"pong: "` followed by the received line including its trailing
newline, and the server performs exactly one exchange per stream (its
response is the same whatever bytes follow the first line). -/
theorem ping_exchange (m : List Char) (h : '\n' ∉ m) :
    SendPing m = Except.ok (pongTag ++ m) ∧
    (∀ extra, handlePing (m ++ '\n' :: extra) = pongTag ++ (m ++ ['\n'])) ∧
    pongTag <:+: (pongTag ++ m) ∧ m <:+: (pongTag ++ m) := by
  have hserver : ∀ extra, handlePing (m ++ '\n' :: extra) =
      pongTag ++ (m ++ ['\n']) := by
    intro extra
    rw [handlePing, readLine_append m extra h]
  have hnp : '\n' ∉ pongTag ++ m := by
    rw [List.mem_append, not_or]
    exact ⟨by decide, h⟩
  refine ⟨?_, hserver, ⟨[], m, by simp⟩, ⟨pongTag, [], by simp⟩⟩
  rw [SendPing]
  have hresp : handlePing (m ++ ['\n']) = (pongTag ++ m) ++ '\n' :: [] := by
    rw [hserver []]; simp
  rw [hresp, readLine_append _ [] hnp]
  simp

/-- Witness for C5 at `m = "hi"`. -/
theorem ping_exchange_witness :
    '\n' ∉ "hi".toList ∧
    SendPing "hi".toList = Except.ok (pongTag ++ "hi".toList) :=
  ⟨by decide, (ping_exchange "hi".toList (by decide)).1⟩

/-- C10: on success, `SendPing` and `SendChatMessage` return the server's
response line with the final newline delimiter removed: the returned string
contains no newline at all (in particular never ends with one) and equals
the wire-level response line — which does end with the newline — minus its
last character. -/
theorem send_strips_trailing_newline (ts m rp rc : List Char) :
    (SendPing m = Except.ok rp →
      ∃ line rest, readLine (handlePing (m ++ ['\n'])) = some (line, rest) ∧
        rp = line.dropLast ∧ line.getLast? = some '\n' ∧ '\n' ∉ rp) ∧
    (SendChatMessage ts m = Except.ok rc →
      ∃ line rest, readLine (handleChat ts (m ++ ['\n'])) = some (line, rest) ∧
        rc = line.dropLast ∧ line.getLast? = some '\n' ∧ '\n' ∉ rc) := by
  constructor
  · intro hp
    rw [SendPing] at hp
    cases hrl : readLine (handlePing (m ++ ['\n'])) with
    | none => rw [hrl] at hp; simp at hp
    | some pr =>
        obtain ⟨line, rest⟩ := pr
        rw [hrl] at hp
        simp only [Except.ok.injEq] at hp
        obtain ⟨p, hp1, hp2, _⟩ := readLine_some hrl
        refine ⟨line, rest, rfl, hp.symm, ?_, ?_⟩
        · rw [hp1, List.getLast?_concat]
        · rw [← hp, hp1, List.dropLast_concat]
          exact hp2
  · intro hc
    rw [SendChatMessage] at hc
    cases hrl : readLine (handleChat ts (m ++ ['\n'])) with
    | none => rw [hrl] at hc; simp at hc
    | some pr =>
        obtain ⟨line, rest⟩ := pr
        rw [hrl] at hc
        simp only [Except.ok.injEq] at hc
        obtain ⟨p, hp1, hp2, _⟩ := readLine_some hrl
        refine ⟨line, rest, rfl, hc.symm, ?_, ?_⟩
        · rw [hp1, List.getLast?_concat]
        · rw [← hc, hp1, List.dropLast_concat]
          exact hp2

/-- Witness for C10 at `m = "hi"` for both protocols. -/
theorem send_strips_trailing_newline_witness :
    (∃ line rest,
      readLine (handlePing (['h', 'i'] ++ ['\n'])) = some (line, rest) ∧
      "pong: hi".toList = line.dropLast ∧ line.getLast? = some '\n' ∧
      '\n' ∉ "pong: hi".toList) ∧
    (∃ line rest,
      readLine (handleChat "12:00:00".toList (['h', 'i'] ++ ['\n'])) =
        some (line, rest) ∧
      "[12:00:00] Echo: hi".toList = line.dropLast ∧
      line.getLast? = some '\n' ∧ '\n' ∉ "[12:00:00] Echo: hi".toList) :=
  ⟨(send_strips_trailing_newline "12:00:00".toList ['h', 'i']
      "pong: hi".toList "[12:00:00] Echo: hi".toList).1 (by rfl),
   (send_strips_trailing_newline "12:00:00".toList ['h', 'i']
      "pong: hi".toList "[12:00:00] Echo: hi".toList).2 (by rfl)⟩

/-- C6 (amended): for every message `m` *without embedded newlines* and every
timestamp string `ts` without newlines, the `SendChatMessage` exchange
against `handleChat` succeeds with `"[" ++ ts ++ "] Echo: " ++ m`, which
contains `m` and the substring `"Echo: "`; the server answers each received
line with `chatHeader ts` followed by the line including its trailing
newline, and a clean end of stream ends the server loop with no further
output. -/
theorem chat_exchange (ts m : List Char) (hts : '\n' ∉ ts) (hm : '\n' ∉ m) :
    SendChatMessage ts m = Except.ok (chatHeader ts ++ m) ∧
    ['E', 'c', 'h', 'o', ':', ' '] <:+: (chatHeader ts ++ m) ∧
    m <:+: (chatHeader ts ++ m) ∧
    handleChat ts [] = [] ∧
    (∀ rest, handleChat ts (m ++ '\n' :: rest) =
      (chatHeader ts ++ m ++ ['\n']) ++ handleChat ts rest) := by
  have hserver : ∀ rest, handleChat ts (m ++ '\n' :: rest) =
      (chatHeader ts ++ m ++ ['\n']) ++ handleChat ts rest := by
    intro rest
    rw [handleChat, chatLoop_line ts m hm [] rest]
    simp [handleChat]
  have hnh : '\n' ∉ chatHeader ts ++ m := by
    rw [List.mem_append, not_or, chatHeader, List.mem_cons, not_or,
      List.mem_append, not_or]
    exact ⟨⟨by decide, hts, by decide⟩, hm⟩
  refine ⟨?_, ⟨'[' :: (ts ++ [']', ' ']), m, by simp [chatHeader]⟩,
    ⟨chatHeader ts, [], by simp⟩, rfl, hserver⟩
  rw [SendChatMessage]
  have hresp : handleChat ts (m ++ ['\n']) =
      (chatHeader ts ++ m) ++ '\n' :: [] := by
    rw [show m ++ ['\n'] = m ++ '\n' :: [] from rfl, hserver []]
    simp [handleChat, chatLoop]
  rw [hresp, readLine_append _ [] hnh]
  simp

/-- Witness for C6 (amended) at `ts = "12:00:00"`, `m = "hi"`. -/
theorem chat_exchange_witness :
    '\n' ∉ "12:00:00".toList ∧ '\n' ∉ "hi".toList ∧
    SendChatMessage "12:00:00".toList "hi".toList =
      Except.ok (chatHeader "12:00:00".toList ++ "hi".toList) :=
  ⟨by decide, by decide,
    (chat_exchange "12:00:00".toList "hi".toList (by decide) (by decide)).1⟩

/-- C6 counterexample: for the message `"a\nb"`, which carries an embedded
newline, the chat exchange returns only the echo of the first line, which
does not contain the original message — the claim's "for all message
strings `m`" fails on the code. -/
theorem chat_embedded_newline_cex :
    SendChatMessage "12:00:00".toList ['a', '\n', 'b'] =
      Except.ok (chatHeader "12:00:00".toList ++ ['a']) ∧
    ¬ (['a', '\n', 'b'] <:+: chatHeader "12:00:00".toList ++ ['a']) :=
  ⟨by rfl, by decide⟩

theorem waitForPeerCountLoop_ok_iff (peers : Nat → Nat)
    (expected timeoutMs k : Nat) :
    waitForPeerCountLoop peers expected timeoutMs k = Except.ok () ↔
      ∃ j, k ≤ j ∧ 100 * j < timeoutMs ∧ expected ≤ peers (100 * j) := by
  induction k using waitForPeerCountLoop.induct peers expected timeoutMs with
  | case1 k h =>
      rw [waitForPeerCountLoop, if_pos h]
      constructor
      · intro hh; exact absurd hh (by simp)
      · rintro ⟨j, hj, h2, _⟩; omega
  | case2 k h hfound =>
      rw [waitForPeerCountLoop, if_neg h, if_pos hfound]
      exact ⟨fun _ => ⟨k, le_refl k, by omega, hfound⟩, fun _ => rfl⟩
  | case3 k h hnot ih =>
      rw [waitForPeerCountLoop, if_neg h, if_neg hnot, ih]
      constructor
      · rintro ⟨j, hj, h2, h3⟩; exact ⟨j, by omega, h2, h3⟩
      · rintro ⟨j, hj, h2, h3⟩
        have hne : j ≠ k := fun e => hnot (e ▸ h3)
        exact ⟨j, by omega, h2, h3⟩

theorem waitForPeerCountLoop_shape (peers : Nat → Nat)
    (expected timeoutMs k : Nat) :
    waitForPeerCountLoop peers expected timeoutMs k = Except.ok () ∨
    waitForPeerCountLoop peers expected timeoutMs k =
      Except.error (peerCountTimeoutMsg expected (peers timeoutMs)) := by
  induction k using waitForPeerCountLoop.induct peers expected timeoutMs with
  | case1 k h => right; rw [waitForPeerCountLoop, if_pos h]
  | case2 k h hfound =>
      left; rw [waitForPeerCountLoop, if_neg h, if_pos hfound]
  | case3 k h hnot ih =>
      rw [waitForPeerCountLoop, if_neg h, if_neg hnot]; exact ih

theorem waitForDHTValueLoop_shape (lookup : Nat → Except Unit (List Byte))
    (expectedValue : List Byte) (timeoutMs k : Nat) :
    waitForDHTValueLoop lookup expectedValue timeoutMs k = Except.ok () ∨
    waitForDHTValueLoop lookup expectedValue timeoutMs k =
      Except.error dhtTimeoutMsg := by
  induction k using waitForDHTValueLoop.induct lookup expectedValue timeoutMs with
  | case1 k h => right; rw [waitForDHTValueLoop, if_pos h]
  | case2 k h hv =>
      left; rw [waitForDHTValueLoop, if_neg h, hv]; simp
  | case3 k h v hv hne ih =>
      rw [waitForDHTValueLoop, if_neg h, hv]
      dsimp only
      rw [if_neg hne]
      exact ih
  | case4 k h e hv ih =>
      rw [waitForDHTValueLoop, if_neg h, hv]
      exact ih

theorem waitForProtocolReadyLoop_shape
    (getProtocols : Nat → Except Unit (List (List Char)))
    (protocolID : List Char) (timeoutMs k : Nat) :
    waitForProtocolReadyLoop getProtocols protocolID timeoutMs k =
      Except.ok () ∨
    waitForProtocolReadyLoop getProtocols protocolID timeoutMs k =
      Except.error (protocolTimeoutMsg protocolID) := by
  induction k using
      waitForProtocolReadyLoop.induct getProtocols protocolID timeoutMs with
  | case1 k h => right; rw [waitForProtocolReadyLoop, if_pos h]
  | case2 k h v hv heq =>
      left; rw [waitForProtocolReadyLoop, if_neg h, hv]
      dsimp only
      rw [if_pos heq]
  | case3 k h v hv hne ih =>
      rw [waitForProtocolReadyLoop, if_neg h, hv]
      dsimp only
      rw [if_neg hne]
      exact ih
  | case4 k h e hv ih =>
      rw [waitForProtocolReadyLoop, if_neg h, hv]
      exact ih

/-- C4 (amended): `WaitForPeerCount` returns success iff the observed peer
count is at least `expected` at one of the 100 ms ticker ticks that occur
strictly before the deadline — there is no check before the first tick, so a
count that is already sufficient at call time does not produce success when
the timeout is shorter than the polling interval; otherwise it returns the
timeout error reporting the count observed at the deadline. (A tick
coinciding exactly with the deadline is resolved to the timeout branch.) -/
theorem waitForPeerCount_spec (peers : Nat → Nat) (expected timeoutMs : Nat) :
    (WaitForPeerCount peers expected timeoutMs = Except.ok () ↔
      ∃ k, 1 ≤ k ∧ 100 * k < timeoutMs ∧ expected ≤ peers (100 * k)) ∧
    (WaitForPeerCount peers expected timeoutMs = Except.ok () ∨
      WaitForPeerCount peers expected timeoutMs =
        Except.error (peerCountTimeoutMsg expected (peers timeoutMs))) :=
  ⟨waitForPeerCountLoop_ok_iff peers expected timeoutMs 1,
   waitForPeerCountLoop_shape peers expected timeoutMs 1⟩

/-- C4 counterexample: a host that already has 1 peer, `expectedCount = 1`
and a 50 ms timeout (shorter than the 100 ms polling interval) times out —
reporting count 1 — although the peer-set size is already sufficient at the
time of the call, refuting "returns success ... even for T shorter than the
polling interval". -/
theorem waitForPeerCount_no_initial_check_cex :
    WaitForPeerCount (fun _ => 1) 1 50 =
      Except.error (peerCountTimeoutMsg 1 1) := by
  rw [WaitForPeerCount, waitForPeerCountLoop]
  norm_num

/-- C7 (amended): `WaitForConnection` succeeds immediately — without
registering any notifiee and without any new connection event — when the
target is in node1's connected-peer set *and* node1 is in the target's
connected-peer set: the immediate-success precondition is the bidirectional
check `isConnected(node1, node2.ID()) && isConnected(node2, node1.ID())`,
not membership in node1's peer set alone. -/
theorem waitForConnection_immediate (st : NetState) (selfID targetID : PeerID)
    (events : List ConnEvent)
    (h1 : isConnected st.peersA targetID = true)
    (h2 : isConnected st.peersB selfID = true) :
    waitForConnection st selfID targetID events = (Except.ok (), []) := by
  rw [waitForConnection, h1, h2]
  rfl

/-- Witness for C7 (amended): both directions connected. -/
theorem waitForConnection_immediate_witness :
    isConnected [2] 2 = true ∧ isConnected [1] 1 = true ∧
    waitForConnection ⟨[2], [1]⟩ 1 2 [] = (Except.ok (), []) :=
  ⟨rfl, rfl, waitForConnection_immediate ⟨[2], [1]⟩ 1 2 [] rfl rfl⟩

/-- C7 counterexample: the target peer (id 2) is already in node1's
connected-peer set, but node1 (id 1) is not in the target's set; the call
does not return immediately — it registers the notifiee — and, with no
events arriving, times out: membership in node1's peer set alone is not the
precondition. -/
theorem waitForConnection_one_sided_cex :
    isConnected [2] 2 = true ∧
    waitForConnection ⟨[2], []⟩ 1 2 [] =
      (Except.error connTimeoutMsg, [Action.notifyReg, Action.stopNotify]) :=
  ⟨rfl, rfl⟩

/-- C2: a `Connected` event naming the target that the host delivers in the
window between the initial connectivity check and `Network().Notify` reaches
no registered notifiee: the wait times out although a qualifying event
occurred during the wait. The same event delivered after registration
produces success, so it is precisely the check-then-subscribe gap that loses
the event. -/
theorem waitForConnection_gap_event_lost :
    waitForConnection ⟨[], []⟩ 1 2 [⟨2, DeliveryPhase.duringGap⟩] =
      (Except.error connTimeoutMsg, [Action.notifyReg, Action.stopNotify]) ∧
    waitForConnection ⟨[], []⟩ 1 2 [⟨2, DeliveryPhase.whileSubscribed⟩] =
      (Except.ok (), [Action.notifyReg, Action.stopNotify]) :=
  ⟨rfl, rfl⟩

/-- C3: under the interleaving read₀, read₁, commit₀, commit₁ of two
concurrent `Connected` invocations for the target peer, both invocations
observe `notified = false` through the plain (unsynchronized) boolean guard
and both execute `close(n.connected)` — `closeCount = 2`, which in Go is a
"close of closed channel" panic; under the sequential interleaving the
channel is closed exactly once, so it is precisely the concurrent
interleaving the guard fails to exclude. -/
theorem connected_double_close :
    (runConnected 7 7 7 [0, 1, 0, 1]).closeCount = 2 ∧
    (runConnected 7 7 7 [0, 0, 1, 1]).closeCount = 1 :=
  ⟨rfl, rfl⟩

/-- C9: on every return path of `WaitForConnection` the subscription trace
is balanced: either the call returned on the immediate-connectivity path and
never registered the notifiee, or it registered the notifiee
(`Network().Notify`) and unregistered it (`StopNotify`) before returning —
on success, timeout and cancellation alike; no subscription outlives the
wait. -/
theorem waitForConnection_unsubscribes (st : NetState)
    (selfID targetID : PeerID) (events : List ConnEvent) :
    (waitForConnection st selfID targetID events).2 = [] ∨
    (waitForConnection st selfID targetID events).2 =
      [Action.notifyReg, Action.stopNotify] := by
  rw [waitForConnection]
  split_ifs <;> simp

/-- C8 (amended): every wait operation returns a distinguishable timeout
error on expiry, but only `WaitForPeerCount` carries last-known state — the
peer count re-read at the deadline appears verbatim in its message — and
`WaitForProtocolReady` names the sought protocol identifier (not the peer's
protocol list); `WaitForConnection` and `WaitForDHTValue` return fixed
messages carrying no last-known state, and those two fixed messages are
distinct. -/
theorem wait_timeout_errors (peers : Nat → Nat) (expected timeoutMs : Nat)
    (lookup : Nat → Except Unit (List Byte)) (expectedValue : List Byte)
    (getProtocols : Nat → Except Unit (List (List Char)))
    (protocolID : List Char) (st : NetState) (selfID targetID : PeerID)
    (events : List ConnEvent) :
    (WaitForPeerCount peers expected timeoutMs = Except.ok () ∨
      (WaitForPeerCount peers expected timeoutMs =
        Except.error (peerCountTimeoutMsg expected (peers timeoutMs)) ∧
       (toString (peers timeoutMs)).toList <:+:
         peerCountTimeoutMsg expected (peers timeoutMs))) ∧
    (WaitForProtocolReady getProtocols protocolID timeoutMs = Except.ok () ∨
      (WaitForProtocolReady getProtocols protocolID timeoutMs =
        Except.error (protocolTimeoutMsg protocolID) ∧
       protocolID <:+: protocolTimeoutMsg protocolID)) ∧
    (WaitForDHTValue lookup expectedValue timeoutMs = Except.ok () ∨
      WaitForDHTValue lookup expectedValue timeoutMs =
        Except.error dhtTimeoutMsg) ∧
    ((waitForConnection st selfID targetID events).1 = Except.ok () ∨
      (waitForConnection st selfID targetID events).1 =
        Except.error connTimeoutMsg) ∧
    connTimeoutMsg ≠ dhtTimeoutMsg := by
  refine ⟨?_, ?_, waitForDHTValueLoop_shape lookup expectedValue timeoutMs 1,
    ?_, by decide⟩
  · rcases waitForPeerCountLoop_shape peers expected timeoutMs 1 with h | h
    · exact Or.inl h
    · refine Or.inr ⟨h, ⟨"timeout: expected ".toList ++
        (toString expected).toList ++ " peers, got ".toList, [], ?_⟩⟩
      simp [peerCountTimeoutMsg]
  · rcases waitForProtocolReadyLoop_shape getProtocols protocolID timeoutMs 1
        with h | h
    · exact Or.inl h
    · exact Or.inr ⟨h, ⟨"timeout waiting for protocol ".toList, [], by
        simp [protocolTimeoutMsg]⟩⟩
  · rw [waitForConnection]
    split_ifs <;> simp

/-- C8 counterexample: two `WaitForDHTValue` runs whose last looked-up
values differ (`[1]` versus `[2]`) time out with the identical fixed error
message, so the timeout error of this wait operation cannot carry the last
looked-up value (nor any other last-known state). -/
theorem dht_timeout_carries_no_state_cex :
    WaitForDHTValue (fun _ => Except.ok [1]) [9] 300 =
      Except.error dhtTimeoutMsg ∧
    WaitForDHTValue (fun _ => Except.ok [2]) [9] 300 =
      Except.error dhtTimeoutMsg := by
  have h : ∀ (v : List Byte), v ≠ [9] →
      WaitForDHTValue (fun _ => Except.ok v) [9] 300 =
        Except.error dhtTimeoutMsg := by
    intro v hv
    rw [WaitForDHTValue, waitForDHTValueLoop, if_neg (by norm_num)]
    dsimp only
    rw [if_neg hv, waitForDHTValueLoop, if_pos (by norm_num)]
  exact ⟨h [1] (by decide), h [2] (by decide)⟩

end LibP2PLearn
